import Mathlib

/-!
Verification of the deterministic mutation-noise subsystem (`uber_ga/noise.py`):
the noise table, block sampling, cumulative-block caching, and the scoped
parameter perturbation (`NoiseAdder`).  Machine floats are modelled as exact
rationals; numpy's seeded generator is modelled by a fixed deterministic
mixing function, since every property at issue depends only on the generator
being a deterministic function of its seed, never on the values drawn.
-/

namespace UberGA

/-- Errors raised by the Python runtime or numpy in the modelled code paths. -/
inductive Err where
  | valueError
  | typeError
  deriving DecidableEq, Repr

/-- A mutation: a (seed, scale) pair, as in `mutations` of `cumulative_block`. -/
abbrev Mut := ℕ × ℚ

/-- A 1-D numpy array of float32 values, modelled as a list of rationals. -/
abbrev Vec := List ℚ

/-- The `_cache` dict of `NoiseSource`: mutation-chain prefixes mapped to
their materialized sums, in insertion order. -/
abbrev Cache := List (List Mut × Vec)

/-- Model of the deterministic numpy generator stream: the i-th draw of
`np.random.RandomState(seed)`.  Any fixed function of `(seed, i)` is a
faithful model; the concrete mixing constants are irrelevant to every claim. -/
def mtMix (seed i : ℕ) : ℕ :=
  ((seed + 1) * 2654435761 + i * 40503 + 1) % 4294967296

/-- Model of `np.random.RandomState(seed).normal(size=n).astype('float32')`:
a deterministic sequence of n values computed from the seed alone. -/
def npNormals (seed n : ℕ) : Vec :=
  (List.range n).map (fun i => ((mtMix seed i : ℤ) - 2147483648 : ℚ) / 65536)

/-- The i-th index drawn by `state.randint(0, high=len, size=size)`:
deterministic from the seed, always `< len` when `len > 0`. -/
def randIndex (seed len i : ℕ) : ℕ := mtMix seed i % len

/-- The gathered values `self.noise[indices]` for `NoiseSource.block`. -/
def blockVals (noise : Vec) (size seed : ℕ) : Vec :=
  (List.range size).map (fun i => noise.getD (randIndex seed noise.length i) 0)

/-- Model of `NoiseSource.block(size, seed)`: `randint(0, high=0, ...)` raises
`ValueError` (low >= high) when the table is empty; otherwise it returns the
deterministic gather of table values. -/
def npBlock (noise : Vec) (size seed : ℕ) : Except Err Vec :=
  if noise.length = 0 then .error .valueError
  else .ok (blockVals noise size seed)

/-- The mutable state of a `NoiseSource` object: the noise table, the
mutation-chain cache, and `_max_cache`. -/
structure NoiseSource where
  noise : Vec
  cache : Cache
  maxCache : ℕ
  deriving DecidableEq

/-- Model of `NoiseSource.__init__(seed, size, max_cache)`.  `size` is an
arbitrary integer in Python: `np.random.normal(size=size)` raises
`ValueError` ("negative dimensions are not allowed") when `size < 0`, and
otherwise fills exactly `size` values from the seeded generator.  No other
validation exists in the constructor. -/
def NoiseSource.init (seed : ℕ) (size : ℤ) (maxCache : ℕ) : Except Err NoiseSource :=
  if size < 0 then .error .valueError
  else .ok { noise := npNormals seed size.toNat, cache := [], maxCache := maxCache }

/-- A freshly constructed source with a nonnegative table length. -/
def NoiseSource.mk0 (seed len maxCache : ℕ) : NoiseSource :=
  { noise := npNormals seed len, cache := [], maxCache := maxCache }

/-- Model of the method `NoiseSource.block`, reading only the noise table. -/
def NoiseSource.block (src : NoiseSource) (size seed : ℕ) : Except Err Vec :=
  npBlock src.noise size seed

/-- Elementwise scaling `array * scale` of a numpy array by a scalar. -/
def scaleVec (v : Vec) (c : ℚ) : Vec := v.map (fun x => x * c)

/-- Elementwise addition of two same-length numpy arrays. -/
def addVec (v w : Vec) : Vec := List.zipWith (fun x y => x + y) v w

/-- numpy addition of two 1-D arrays with broadcasting: equal lengths add
elementwise; a length-1 operand broadcasts against the other; any other
length mismatch raises `ValueError`. -/
def addBroadcast (v w : Vec) : Except Err Vec :=
  if v.length = w.length then .ok (addVec v w)
  else if v.length = 1 then .ok (w.map (fun x => v.getD 0 0 + x))
  else if w.length = 1 then .ok (v.map (fun x => x + w.getD 0 0))
  else .error .valueError

/-- Lookup in the `_cache` dict, keyed by the tuple of (seed, scale) pairs. -/
def lookupC (c : Cache) (k : List Mut) : Option Vec :=
  match c with
  | [] => none
  | (k', v) :: t => if k' = k then some v else lookupC t k

/-- Model of the builtin-sum fallback of
`np.sum(self.block(size, seed) * scale for seed, scale in mutations[:-1])`
after the first generated array: Python's `sum` folds `acc + next` left to
right with numpy broadcasting (a failing `block` call propagates). -/
def pySumRest (noise : Vec) (size : ℕ) (acc : Vec) (ms : List Mut) : Except Err Vec :=
  match ms with
  | [] => .ok acc
  | m :: t =>
    match npBlock noise size m.1 with
    | .error e => .error e
    | .ok b =>
      match addBroadcast acc (scaleVec b m.2) with
      | .error e => .error e
      | .ok acc2 => pySumRest noise size acc2 t

/-- Model of `NoiseSource.cumulative_block(size, mutations)`, returning the
updated source (the cache may gain the prefix entry) together with the result
or the raised error.  It mirrors the Python line by line: empty chain gives
`np.zeros(size)`; the final block is computed first; a chain of length one
returns it scaled; otherwise the prefix `mutations[:-1]` is looked up in the
cache and, on a miss, materialized via the builtin-sum fallback of `np.sum`
over the weighted blocks and stored in the cache before the final addition.
The cache key does not include `size`, exactly as in the source. -/
def NoiseSource.cumulative_block (src : NoiseSource) (size : ℕ) (muts : List Mut) :
    NoiseSource × Except Err Vec :=
  match muts with
  | [] => (src, .ok (List.replicate size 0))
  | [m1] =>
    match npBlock src.noise size m1.1 with
    | .error e => (src, .error e)
    | .ok fb => (src, .ok (scaleVec fb m1.2))
  | m1 :: m2 :: rest =>
    match npBlock src.noise size ((m1 :: m2 :: rest).getLast (List.cons_ne_nil m1 (m2 :: rest))).1 with
    | .error e => (src, .error e)
    | .ok fb =>
      let final := scaleVec fb ((m1 :: m2 :: rest).getLast (List.cons_ne_nil m1 (m2 :: rest))).2
      let key := (m1 :: m2 :: rest).dropLast
      match lookupC src.cache key with
      | some pv => (src, addBroadcast pv final)
      | none =>
        match npBlock src.noise size m1.1 with
        | .error e => (src, .error e)
        | .ok b1 =>
          match pySumRest src.noise size (scaleVec b1 m1.2) ((m2 :: rest).dropLast) with
          | .error e => (src, .error e)
          | .ok pfx =>
            ({ src with cache := src.cache ++ [(key, pfx)] }, addBroadcast pfx final)

/-- Total number of cached elements, `sum(x.shape[0] for x in self._cache.values())`. -/
def cacheSize (src : NoiseSource) : ℕ :=
  (src.cache.map (fun e => e.2.length)).sum

/-- Model of `NoiseSource._evict_cache` under Python 3 semantics: the loop
`while self._cache_size() > self._max_cache: del self._cache[self._cache.keys()[0]]`
does nothing when the cache is within budget, and otherwise executes the loop
body, where subscripting the `dict.keys()` view raises `TypeError`
("'dict_keys' object is not subscriptable") before anything is deleted. -/
def evictCache (src : NoiseSource) : Except Err NoiseSource :=
  if cacheSize src ≤ src.maxCache then .ok src else .error .typeError

/-- The state of the TensorFlow variables seen through `sess.run`: the current
value of each variable, one flat list of elements per variable (the shape only
matters through its element count, which the flat length records). -/
abbrev Store := List Vec

/-- Model of `size = int(np.sum(np.prod(x.value for x in v.get_shape()) for v in self._variables))`
in `NoiseAdder.__enter__`.  `np.prod` has no generator special case: it wraps
the generator expression in a 0-d object array and `multiply.reduce` returns
the generator object unreduced.  `np.sum` falls back to Python's builtin `sum`
for a generator argument, whose accumulation `0 + <generator object>` raises
`TypeError` as soon as the outer generator yields once, i.e. for every
non-empty variable list; for an empty variable list the builtin sum is `0`. -/
def computeSize (store : Store) : Except Err ℕ :=
  match store with
  | [] => .ok 0
  | _ :: _ => .error .typeError

/-- The `new_vals` loop of `NoiseAdder.__enter__`: each variable gets
`old_val + noise[:sub_size].reshape(old_val.shape)` and the noise vector is
advanced by `sub_size`; `reshape` raises `ValueError` when the slice holds
fewer than `sub_size` elements.  The whole list is built before any write. -/
def applyChunks (olds : Store) (noise : Vec) : Except Err Store :=
  match olds with
  | [] => .ok []
  | old :: rest =>
    if noise.length < old.length then .error .valueError
    else
      match applyChunks rest (noise.drop old.length) with
      | .error e => .error e
      | .ok r => .ok (addVec old (noise.take old.length) :: r)

/-- Model of `NoiseAdder.__enter__`: compute the size, compute the cumulative
noise, snapshot the current values (`self._old_vals`), build the perturbed
values, and only then write them.  Returns the store and source after the
call paired with the snapshot, or the raised error; every failing path leaves
the store exactly as it was, because `_set_values` is the last step. -/
def adderEnter (src : NoiseSource) (store : Store) (muts : List Mut) :
    (Store × NoiseSource) × Except Err Store :=
  match computeSize store with
  | .error e => ((store, src), .error e)
  | .ok size =>
    match src.cumulative_block size muts with
    | (src2, .error e) => ((store, src2), .error e)
    | (src2, .ok noise) =>
      match applyChunks store noise with
      | .error e => ((store, src2), .error e)
      | .ok newVals => ((newVals, src2), .ok store)

/-- Model of `NoiseAdder.__exit__`: `_set_values(self._old_vals)` writes the
retained snapshot back, unconditionally. -/
def adderExit (snapshot : Store) : Store := snapshot

/-- Model of `with adder.seed(muts): body` under Python's with-statement
semantics: if `__enter__` raises, the body is skipped and `__exit__` is not
called; otherwise the body runs (it may rewrite the store arbitrarily and may
itself raise, reported by its Bool component) and `__exit__` always runs
afterwards.  Returns the final store, the final noise source, and whether the
scope was entered and its body completed without raising. -/
def scopeRun (src : NoiseSource) (store : Store) (muts : List Mut)
    (body : Store → Store × Bool) : Store × NoiseSource × Bool :=
  match adderEnter src store muts with
  | ((s, src2), .error _) => (s, src2, false)
  | ((s, src2), .ok oldVals) =>
    let during := body s
    (adderExit oldVals, src2, during.2)

/-- One step of the weighted sum: add the scaled block of one mutation. -/
def wStep (noise : Vec) (size : ℕ) (acc : Vec) (mu : Mut) : Vec :=
  addVec acc (scaleVec (blockVals noise size mu.1) mu.2)

/-- Spec-side definition (from the specification's words, for comparison with
the code): the direct element-wise weighted sum of `block(size, seed) * scale`
over all pairs of the chain, starting from the all-zero vector. -/
def weightedSum (noise : Vec) (size : ℕ) (m : List Mut) : Vec :=
  m.foldl (wStep noise size) (List.replicate size 0)

/-- A cache is consistent with a noise table at a given size when every entry
it holds is the weighted sum of its key's blocks at that size.  The empty
cache is consistent, and every entry `cumulative_block` writes at this size is. -/
def ConsistentAt (noise : Vec) (size : ℕ) (c : Cache) : Prop :=
  ∀ k v, lookupC c k = some v → v = weightedSum noise size k

/-- Pointwise containment of caches: every entry of the first is an entry,
with the same value, of the second. -/
def cacheLE (c c' : Cache) : Prop :=
  ∀ k v, lookupC c k = some v → lookupC c' k = some v

/-- A small concrete source: table seed 3, table length 4, empty cache. -/
def srcA : NoiseSource := NoiseSource.mk0 3 4 50

/-- The same table as `srcA` but with one consistent cache entry already
present: the prefix `[(5, 2)]` mapped to its weighted sum at size 2. -/
def srcB : NoiseSource :=
  ⟨npNormals 3 4, [([(5, 2)], weightedSum (npNormals 3 4) 2 [(5, 2)])], 50⟩

/-- A two-mutation chain used to exercise the prefix cache. -/
def chain2 : List Mut := [(1, 1), (2, 1)]

/-- A concrete source for the size-conflict scenario: table seed 7, length 4. -/
def srcC5 : NoiseSource := NoiseSource.mk0 7 4 999

/-- A source whose cache (2 elements) exceeds its budget (1). -/
def srcOver : NoiseSource := ⟨[], [([(1, 1)], [0, 0])], 1⟩

/-- A source whose cache (2 elements) is within its budget (5). -/
def srcUnder : NoiseSource := ⟨[], [([(1, 1)], [0, 0])], 5⟩

/-- A parameter store of two arrays of two elements each. -/
def storeTwo : Store := [[0, 0], [0, 0]]

/-- A source built with the default table seed of the code and a small table. -/
def srcEx : NoiseSource := NoiseSource.mk0 1337 16 1000

section Lemmas

theorem blockVals_length (noise : Vec) (size seed : ℕ) :
    (blockVals noise size seed).length = size := by
  simp [blockVals]

theorem scaleVec_length (v : Vec) (c : ℚ) : (scaleVec v c).length = v.length := by
  simp [scaleVec]

theorem addVec_length (v w : Vec) : (addVec v w).length = min v.length w.length := by
  simp [addVec]

theorem addVec_zero_left (v : Vec) (n : ℕ) (h : v.length = n) :
    addVec (List.replicate n 0) v = v := by
  induction v generalizing n with
  | nil => simp [addVec]
  | cons x t ih =>
    cases n with
    | zero => simp at h
    | succ k =>
      simp only [List.length_cons, Nat.succ.injEq] at h
      have ht := ih k h
      simp only [addVec, List.replicate_succ, List.zipWith_cons_cons, zero_add,
        List.cons.injEq] at ht ⊢
      exact ⟨trivial, ht⟩

theorem addBroadcast_eq (v w : Vec) (h : v.length = w.length) :
    addBroadcast v w = .ok (addVec v w) := by
  simp [addBroadcast, h]

theorem wStep_length (noise : Vec) (size : ℕ) (acc : Vec) (mu : Mut)
    (h : acc.length = size) : (wStep noise size acc mu).length = size := by
  simp [wStep, addVec_length, scaleVec_length, blockVals_length, h]

theorem weightedSum_aux_length (noise : Vec) (size : ℕ) (m : List Mut) (acc : Vec)
    (h : acc.length = size) :
    (m.foldl (wStep noise size) acc).length = size := by
  induction m generalizing acc with
  | nil => simpa using h
  | cons mu t ih =>
    simp only [List.foldl_cons]
    exact ih _ (wStep_length noise size acc mu h)

theorem weightedSum_length (noise : Vec) (size : ℕ) (m : List Mut) :
    (weightedSum noise size m).length = size :=
  weightedSum_aux_length noise size m _ (by simp)

theorem weightedSum_nil (noise : Vec) (size : ℕ) :
    weightedSum noise size [] = List.replicate size 0 := rfl

theorem weightedSum_append_single (noise : Vec) (size : ℕ) (m : List Mut) (mu : Mut) :
    weightedSum noise size (m ++ [mu])
      = addVec (weightedSum noise size m) (scaleVec (blockVals noise size mu.1) mu.2) := by
  simp [weightedSum, List.foldl_append, wStep]

theorem npBlock_ok (noise : Vec) (size seed : ℕ) (h : noise ≠ []) :
    npBlock noise size seed = .ok (blockVals noise size seed) := by
  rw [npBlock, if_neg]
  simpa [List.length_eq_zero] using h

theorem pySumRest_spec (noise : Vec) (size : ℕ) (hn : noise ≠ []) (ms : List Mut)
    (acc : Vec) (ha : acc.length = size) :
    pySumRest noise size acc ms = .ok (ms.foldl (wStep noise size) acc) := by
  induction ms generalizing acc with
  | nil => simp [pySumRest]
  | cons mu t ih =>
    have hb : (scaleVec (blockVals noise size mu.1) mu.2).length = size := by
      simp [scaleVec_length, blockVals_length]
    have hadd := addBroadcast_eq acc (scaleVec (blockVals noise size mu.1) mu.2)
      (by rw [ha, hb])
    rw [pySumRest, npBlock_ok noise size mu.1 hn]
    simp only [hadd, List.foldl_cons]
    exact ih (wStep noise size acc mu) (wStep_length noise size acc mu ha)

/-- Core functional-correctness lemma: on a source with a non-empty table and
a cache consistent at the requested size, `cumulative_block` returns exactly
the spec's weighted sum of the chain's scaled blocks. -/
theorem cumulative_block_spec (src : NoiseSource) (n : ℕ) (m : List Mut)
    (hn : src.noise ≠ []) (hc : ConsistentAt src.noise n src.cache) :
    (src.cumulative_block n m).2 = .ok (weightedSum src.noise n m) := by
  cases m with
  | nil => simp [NoiseSource.cumulative_block, weightedSum_nil]
  | cons m1 t =>
    cases t with
    | nil =>
      have hv : (scaleVec (blockVals src.noise n m1.1) m1.2).length = n := by
        simp [scaleVec_length, blockVals_length]
      have h1 : weightedSum src.noise n [m1]
          = scaleVec (blockVals src.noise n m1.1) m1.2 := by
        simpa [weightedSum, wStep] using
          addVec_zero_left (scaleVec (blockVals src.noise n m1.1) m1.2) n hv
      simp [NoiseSource.cumulative_block, npBlock_ok _ _ _ hn, h1]
    | cons m2 rest =>
      have hvlast : ∀ mu : Mut, (scaleVec (blockVals src.noise n mu.1) mu.2).length = n := by
        intro mu; simp [scaleVec_length, blockVals_length]
      have hsplit : (m1 :: m2 :: rest).dropLast
          ++ [(m1 :: m2 :: rest).getLast (List.cons_ne_nil m1 (m2 :: rest))]
          = m1 :: m2 :: rest := List.dropLast_append_getLast _
      have hws : weightedSum src.noise n (m1 :: m2 :: rest)
          = addVec (weightedSum src.noise n ((m1 :: m2 :: rest).dropLast))
              (scaleVec
                (blockVals src.noise n
                  ((m1 :: m2 :: rest).getLast (List.cons_ne_nil m1 (m2 :: rest))).1)
                ((m1 :: m2 :: rest).getLast (List.cons_ne_nil m1 (m2 :: rest))).2) := by
        conv_lhs => rw [← hsplit]
        exact weightedSum_append_single _ _ _ _
      have haddf := addBroadcast_eq
        (weightedSum src.noise n ((m1 :: m2 :: rest).dropLast))
        (scaleVec
          (blockVals src.noise n
            ((m1 :: m2 :: rest).getLast (List.cons_ne_nil m1 (m2 :: rest))).1)
          ((m1 :: m2 :: rest).getLast (List.cons_ne_nil m1 (m2 :: rest))).2)
        (by simp [weightedSum_length, hvlast])
      rw [NoiseSource.cumulative_block]
      rcases hlook : lookupC src.cache ((m1 :: m2 :: rest).dropLast) with _ | pv
      · -- cache miss: the prefix sum is materialized from scratch
        have hpfx : (m2 :: rest).dropLast.foldl (wStep src.noise n)
            (scaleVec (blockVals src.noise n m1.1) m1.2)
            = weightedSum src.noise n ((m1 :: m2 :: rest).dropLast) := by
          rw [show (m1 :: m2 :: rest).dropLast = m1 :: (m2 :: rest).dropLast from rfl,
            weightedSum, List.foldl_cons]
          congr 1
          exact (addVec_zero_left _ n (hvlast m1)).symm
        simp only [npBlock_ok _ _ _ hn, hlook,
          pySumRest_spec src.noise n hn ((m2 :: rest).dropLast) _ (hvlast m1), hpfx,
          haddf, hws]
      · -- cache hit: the cached value is the weighted sum of the key
        simp only [npBlock_ok _ _ _ hn, hlook, hc _ _ hlook, haddf, hws]

theorem cumulative_block_empty_table (src : NoiseSource) (n : ℕ) (m : List Mut)
    (hn : src.noise = []) (hm : m ≠ []) :
    (src.cumulative_block n m).2 = .error .valueError := by
  cases m with
  | nil => exact absurd rfl hm
  | cons m1 t =>
    cases t with
    | nil => simp [NoiseSource.cumulative_block, npBlock, hn]
    | cons m2 rest => simp [NoiseSource.cumulative_block, npBlock, hn]

theorem lookupC_append (c l : Cache) (k : List Mut) (v : Vec)
    (h : lookupC c k = some v) : lookupC (c ++ l) k = some v := by
  induction c with
  | nil => exact absurd h (by simp [lookupC])
  | cons e t ih =>
    obtain ⟨k', v'⟩ := e
    by_cases hk : k' = k
    · simp [lookupC, hk] at h ⊢
      exact h
    · simp only [List.cons_append, lookupC, if_neg hk] at h ⊢
      exact ih h

theorem consistent_nil (noise : Vec) (n : ℕ) : ConsistentAt noise n [] := by
  intro k v h
  simp [lookupC] at h

theorem consistent_single (noise : Vec) (n : ℕ) (k0 : List Mut) :
    ConsistentAt noise n [(k0, weightedSum noise n k0)] := by
  intro k v h
  by_cases hk : k0 = k
  · subst hk
    simp [lookupC] at h
    exact h.symm
  · simp [lookupC, hk] at h

theorem cb_fst_single (src : NoiseSource) (n : ℕ) (m1 : Mut) :
    (src.cumulative_block n [m1]).1 = src := by
  rcases hb : npBlock src.noise n m1.1 with e | fb <;>
    simp [NoiseSource.cumulative_block, hb]

end Lemmas

/-- C1: for every parameter store, mutation chain and scope body — whether the
body returns normally or raises — the store after the perturbation scope is
exactly (bit for bit) the store before scope entry.  The scope exit writes the
retained snapshot back unconditionally; and when scope entry itself raises,
nothing has been written, so the store is likewise unchanged. -/
theorem c1_scope_round_trip (src : NoiseSource) (store : Store) (muts : List Mut)
    (body : Store → Store × Bool) :
    (scopeRun src store muts body).1 = store := by
  unfold scopeRun adderEnter
  cases store with
  | nil =>
    rcases h : NoiseSource.cumulative_block src 0 muts with ⟨src2, res⟩
    cases res <;> simp [computeSize, h, applyChunks, adderExit]
  | cons v rest => simp [computeSize]

/-- C2: `cumulative_block(n, m)` equals the element-wise weighted sum of
`block(n, seed) * scale` over all pairs of `m` (for a non-empty table and any
cache whose entries are consistent at size `n`, the empty cache included); and
for the empty chain it returns the all-zero vector of length `n`, for every
`n ≥ 0`, unconditionally. -/
theorem c2_cumulative_additivity :
    (∀ (src : NoiseSource) (n : ℕ) (m : List Mut), src.noise ≠ [] →
      ConsistentAt src.noise n src.cache →
      (src.cumulative_block n m).2 = .ok (weightedSum src.noise n m)) ∧
    (∀ (src : NoiseSource) (n : ℕ),
      src.cumulative_block n [] = (src, .ok (List.replicate n 0))) :=
  ⟨fun src n m hn hc => cumulative_block_spec src n m hn hc, fun _ _ => rfl⟩

/-- Witness for C2 at a concrete input: table seed 3, length 4, empty cache,
size 2, chain `[(5, 2)]`. -/
theorem c2_witness :
    (srcA.cumulative_block 2 [(5, 2)]).2 = .ok (weightedSum srcA.noise 2 [(5, 2)]) :=
  c2_cumulative_additivity.1 srcA 2 [(5, 2)] (by decide) (consistent_nil _ 2)

/-- C3: the value returned by `cumulative_block` is independent of the prior
contents of the cache: two sources over the same noise table whose caches are
consistent at the requested size (the empty cache, a cache holding the chain's
prefix, or any other consistent cache) return the same result — value or
raised error — for the same `(size, mutations)` query. -/
theorem c3_cache_transparency (s1 s2 : NoiseSource) (n : ℕ) (m : List Mut)
    (hnoise : s1.noise = s2.noise)
    (h1 : ConsistentAt s1.noise n s1.cache) (h2 : ConsistentAt s2.noise n s2.cache) :
    (s1.cumulative_block n m).2 = (s2.cumulative_block n m).2 := by
  by_cases hE : s1.noise = []
  · cases m with
    | nil => rfl
    | cons mh mt =>
      rw [cumulative_block_empty_table s1 n _ hE (by simp),
        cumulative_block_empty_table s2 n _ (hnoise ▸ hE) (by simp)]
  · have hE2 : s2.noise ≠ [] := hnoise ▸ hE
    rw [cumulative_block_spec s1 n m hE h1, cumulative_block_spec s2 n m hE2 h2, hnoise]

/-- Witness for C3 at a concrete input: the same query against the same table
with an empty cache and with the chain's prefix already cached. -/
theorem c3_witness :
    (srcA.cumulative_block 2 [(5, 2), (6, 1)]).2
      = (srcB.cumulative_block 2 [(5, 2), (6, 1)]).2 :=
  c3_cache_transparency srcA srcB 2 [(5, 2), (6, 1)] rfl
    (consistent_nil _ 2) (consistent_single _ 2 _)

/-- C4: for a fixed table seed and table length, `block(length, seed)` returns
an identical sequence of values regardless of the rest of the object's state:
two sources built from the same `(table_seed, table_length)` — freshly
constructed or with arbitrarily diverged caches and budgets — agree exactly. -/
theorem c4_block_determinism (seed len mc1 mc2 : ℕ) (c1 c2 : Cache) (n sd : ℕ) :
    NoiseSource.block ⟨npNormals seed len, c1, mc1⟩ n sd
      = NoiseSource.block ⟨npNormals seed len, c2, mc2⟩ n sd := rfl

/-- C5 (code divergence): after `cumulative_block(2, chain2)` caches the
length-2 prefix, the call `cumulative_block(1, chain2)` on the same source
silently succeeds and returns a vector of length 2 for requested size 1 —
numpy broadcasting of the cached length-2 prefix against the length-1 final
block — instead of returning a size-1 result or raising. -/
theorem c5_size_conflict_wrong_length :
    ((NoiseSource.cumulative_block (NoiseSource.cumulative_block srcC5 2 chain2).1
        1 chain2).2).map List.length = .ok 2 ∧ (2 : ℕ) ≠ 1 := by
  exact ⟨rfl, by decide⟩

/-- C6 (code divergence): `NoiseAdder.__enter__` raises `TypeError` while
computing `total_size` for any non-empty variable list, before any noise is
requested and before any value is read or written, so the perturbation
`original + chunk` is never applied.  Evaluated here on a store of two
two-element arrays with chain `[(42, 1)]`. -/
theorem c6_enter_raises_type_error :
    adderEnter srcEx storeTwo [(42, 1)] = ((storeTwo, srcEx), .error .typeError) := rfl

/-- C7: if scope entry fails at any step — computing the size, computing the
cumulative noise vector, or reshaping — the parameter store is left exactly
as it was: no array is written before every preparatory step has succeeded. -/
theorem c7_failed_enter_leaves_store (src : NoiseSource) (store : Store)
    (muts : List Mut) (e : Err) (h : (adderEnter src store muts).2 = .error e) :
    (adderEnter src store muts).1.1 = store := by
  unfold adderEnter at h ⊢
  rcases hcs : computeSize store with e' | size
  · simp [hcs]
  · simp only [hcs] at h ⊢
    rcases hcb : src.cumulative_block size muts with ⟨src2, res⟩
    cases res with
    | error e2 => simp [hcb]
    | ok noise =>
      simp only [hcb] at h ⊢
      rcases hac : applyChunks store noise with e3 | nv
      · simp [hac]
      · simp only [hac] at h
        exact absurd h (by simp)

/-- Witness for C7 at a concrete input: the entry that fails with `TypeError`
on a non-empty store leaves the store unchanged. -/
theorem c7_witness : (adderEnter srcEx storeTwo [(42, 1)]).1.1 = storeTwo :=
  c7_failed_enter_leaves_store srcEx storeTwo [(42, 1)] .typeError rfl

/-- C8 counterexample: constructing a source with requested length 0 — a
length that the claim says must raise — succeeds and returns an empty table. -/
theorem c8_counterexample : NoiseSource.init 1337 0 1000 = .ok ⟨[], [], 1000⟩ := rfl

/-- C8 (amended): constructing with a negative length raises (numpy
`ValueError`); for every length ≥ 0, zero included, construction succeeds and
produces exactly that many values, determined only by the table seed (and the
length); no `ConfigError` type exists in the code. -/
theorem c8_init_amended (seed : ℕ) (size : ℤ) (mc : ℕ) :
    (size < 0 → NoiseSource.init seed size mc = .error .valueError) ∧
    (0 ≤ size →
      NoiseSource.init seed size mc = .ok ⟨npNormals seed size.toNat, [], mc⟩ ∧
      (npNormals seed size.toNat).length = size.toNat) := by
  refine ⟨fun h => ?_, fun h => ⟨?_, ?_⟩⟩
  · simp [NoiseSource.init, h]
  · simp [NoiseSource.init, not_lt.mpr h]
  · simp [npNormals]

/-- Witness for C8 (amended) at concrete inputs: length -3 raises, length 3
succeeds with the seed-determined table. -/
theorem c8_witness :
    NoiseSource.init 11 (-3) 5 = .error .valueError ∧
      NoiseSource.init 11 3 5 = .ok ⟨npNormals 11 3, [], 5⟩ :=
  ⟨(c8_init_amended 11 (-3) 5).1 (by decide), ((c8_init_amended 11 3 5).2 (by decide)).1⟩

/-- C9 (code divergence): when the cache is within budget the eviction loop is
a no-op, as the claim says; but when the cache exceeds the budget the loop
body raises `TypeError` (Python 3 cannot subscript the `dict.keys()` view)
instead of evicting down to the budget. -/
theorem c9_evict_behavior :
    evictCache srcUnder = .ok srcUnder ∧ evictCache srcOver = .error .typeError :=
  ⟨rfl, rfl⟩

/-- C10: `cumulative_block` never removes or overwrites a cache entry — every
entry of the cache before a call is present, with the same value, after it —
and a call with an empty or single-element chain, or whose prefix is already
cached, returns the source exactly unchanged. -/
theorem c10_cache_monotone (src : NoiseSource) (n : ℕ) (m : List Mut) :
    cacheLE src.cache ((src.cumulative_block n m).1).cache ∧
    ((m.length ≤ 1 ∨ (lookupC src.cache m.dropLast).isSome) →
      (src.cumulative_block n m).1 = src) := by
  cases m with
  | nil => exact ⟨fun k v h => h, fun _ => rfl⟩
  | cons m1 t =>
    cases t with
    | nil =>
      refine ⟨?_, fun _ => cb_fst_single src n m1⟩
      rw [cb_fst_single src n m1]
      exact fun k v h => h
    | cons m2 rest =>
      constructor
      · rcases hb : npBlock src.noise n
            ((m1 :: m2 :: rest).getLast (List.cons_ne_nil m1 (m2 :: rest))).1 with e | fb
        · simp only [NoiseSource.cumulative_block, hb]
          exact fun k v h => h
        · rcases hlook : lookupC src.cache ((m1 :: m2 :: rest).dropLast) with _ | pv
          · rcases hb1 : npBlock src.noise n m1.1 with e1 | b1
            · simp only [NoiseSource.cumulative_block, hb, hlook, hb1]
              exact fun k v h => h
            · rcases hps : pySumRest src.noise n (scaleVec b1 m1.2)
                  ((m2 :: rest).dropLast) with e2 | pfx
              · simp only [NoiseSource.cumulative_block, hb, hlook, hb1, hps]
                exact fun k v h => h
              · simp only [NoiseSource.cumulative_block, hb, hlook, hb1, hps]
                exact fun k v h => lookupC_append _ _ k v h
          · simp only [NoiseSource.cumulative_block, hb, hlook]
            exact fun k v h => h
      · intro hOr
        rcases hOr with h1 | h2
        · simp at h1
        · obtain ⟨pv, hlook⟩ := Option.isSome_iff_exists.mp h2
          rcases hb : npBlock src.noise n
              ((m1 :: m2 :: rest).getLast (List.cons_ne_nil m1 (m2 :: rest))).1 with e | fb
          · simp only [NoiseSource.cumulative_block, hb]
          · simp only [NoiseSource.cumulative_block, hb, hlook]

/-- Witness for C10 at concrete inputs: an existing entry survives a call that
inserts a new prefix, and a call with an empty chain returns the source
unchanged. -/
theorem c10_witness :
    lookupC ((srcB.cumulative_block 2 [(7, 1), (8, 1)]).1).cache [(5, 2)]
        = some (weightedSum (npNormals 3 4) 2 [(5, 2)]) ∧
      (srcA.cumulative_block 2 []).1 = srcA :=
  ⟨(c10_cache_monotone srcB 2 [(7, 1), (8, 1)]).1 [(5, 2)] _ rfl,
   (c10_cache_monotone srcA 2 []).2 (Or.inl (by decide))⟩

end UberGA
